import Mathlib

/-
Verification of the homey-community-store-cli publish pipeline
(src/cli.js) against its natural-language specification.

The JavaScript source is shallowly embedded below: pure helper
functions become Lean functions over lists and strings, and the
stateful publish pipeline becomes an explicit function from its
external inputs (credential store contents, prompt answers, registry
response, project files and per-file upload success) to a trace
recording the side effects it issues and the outcome it reports.
-/

set_option autoImplicit false

namespace HCS

/-! ## String utilities mirroring the JavaScript string operations -/

/-- Boolean test that the first list is a prefix of the second. -/
def isPrefixChars : List Char → List Char → Bool
  | [], _ => true
  | _ :: _, [] => false
  | a :: as, b :: bs => a = b && isPrefixChars as bs

/-- Boolean test that sub occurs as a contiguous infix of the list. -/
def hasInfixChars (sub : List Char) : List Char → Bool
  | [] => isPrefixChars sub []
  | c :: rest => isPrefixChars sub (c :: rest) || hasInfixChars sub rest

/-- Model of the JavaScript expression s.includes(sub). -/
def jsIncludes (s sub : String) : Bool := hasInfixChars sub.data s.data

/-- Model of the JavaScript expression s.startsWith(sub). -/
def jsStartsWith (s sub : String) : Bool := isPrefixChars sub.data s.data

/-- Characters of the final path component, i.e. those after the last
slash (the whole path when it has no slash). -/
def basenameChars (cs : List Char) : List Char :=
  (cs.reverse.takeWhile (fun c => c ≠ '/')).reverse

/-- Model of node path.extname: the substring of the last path
component from its last dot to the end, empty when the component has
no dot or when its only dot is its first character. -/
def extname (p : String) : String :=
  let base := basenameChars p.data
  let after := (base.reverse.takeWhile (fun c => c ≠ '.')).reverse
  if base.contains '.' && after.length + 2 ≤ base.length then
    String.mk ('.' :: after)
  else
    ""

/-! ## Archiver (createTar, cli.js lines 72-105) -/

/-- Version part of the archive filename, cli.js lines 75-78: the
template literal prepends the letter v to the manifest version, and
the latest flag replaces the whole version with the word latest. -/
def tarVersion (appVersion : String) (latest : Bool) : String :=
  if latest then "latest" else "v" ++ appVersion

/-- Archive filename, cli.js line 79. -/
def tarFileName (appId appVersion : String) (latest : Bool) : String :=
  appId ++ "-" ++ tarVersion appVersion latest ++ ".tar.gz"

/-- Filter passed to tar.c, cli.js lines 84-94.  Returning true means
the entry is included in the archive.  The dotfile and self-inclusion
checks are guarded by the path not containing node_modules. -/
def tarFilter (tarFile p : String) (isFile : Bool) : Bool :=
  if jsIncludes p "node_modules" = false then
    if isFile && jsStartsWith p "." then false
    else if isFile && jsIncludes p tarFile then false
    else true
  else true

/-! ## Category normalization (determineCategory, cli.js lines 65-70) -/

/-- Possible shapes of the category field of the app manifest: a
single string value or an array of strings. -/
inductive JsCategory where
  | str (s : String)
  | arr (xs : List String)
deriving DecidableEq, Repr

/-- JavaScript truthiness of a category value: the empty string is
falsy, every array is truthy. -/
def JsCategory.truthy : JsCategory → Bool
  | .str s => s ≠ ""
  | .arr _ => true

/-- Model of determineCategory, cli.js lines 65-70: a falsy or absent
category becomes the general category, an array is returned as is, and
any other value is wrapped in a singleton array. -/
def determineCategory (category : Option JsCategory) : List String :=
  match category with
  | none => ["general"]
  | some c =>
    if c.truthy = false then ["general"]
    else
      match c with
      | .str s => [s]
      | .arr xs => xs

/-! ## Locale assembly (publish, cli.js lines 291-346)

JavaScript objects used as string-keyed maps are embedded as
association lists with unique keys maintained by setKey, preserving
insertion order exactly as JavaScript object keys do. -/

/-- Lookup of a key in an association list, first match. -/
def getKey {α : Type} (m : List (String × α)) (k : String) : Option α :=
  match m with
  | [] => none
  | (k2, v) :: rest => if k2 = k then some v else getKey rest k

/-- Assignment of a key in an association list: overwrite the first
binding in place, or append a fresh binding at the end, matching
JavaScript object property assignment. -/
def setKey {α : Type} (m : List (String × α)) (k : String) (v : α) : List (String × α) :=
  match m with
  | [] => [(k, v)]
  | (k2, w) :: rest => if k2 = k then (k, v) :: rest else (k2, w) :: setKey rest k v

/-- Value a JavaScript object literal built by successive assignments
would hold for a key: the last binding wins. -/
def lookupLast {α : Type} : List (String × α) → String → Option α
  | [], _ => none
  | (k2, v) :: rest, k =>
    match lookupLast rest k with
    | some r => some r
    | none => if k2 = k then some v else none

/-- One entry of the assembled locales object: the record built for a
single language.  A field holding none models an absent key. -/
structure LocaleEntry where
  name : Option String
  description : Option String
  tags : Option (List String)
  changelog : Option (List (String × String))
deriving DecidableEq, Repr

/-- Entry with no keys, the JavaScript empty object literal. -/
def LocaleEntry.empty : LocaleEntry := ⟨none, none, none, none⟩

/-- Spread of an entry with a new description field, the JavaScript
object spread in cli.js lines 304-307 and 314-317. -/
def LocaleEntry.withDescription (e : LocaleEntry) (d : String) : LocaleEntry :=
  ⟨e.name, some d, e.tags, e.changelog⟩

/-- Spread of an entry with a new tags field, cli.js lines 324-327. -/
def LocaleEntry.withTags (e : LocaleEntry) (t : List String) : LocaleEntry :=
  ⟨e.name, e.description, some t, e.changelog⟩

/-- Mutation of an entry adding one changelog version, cli.js lines
335-341: a missing changelog sub-object is first created empty. -/
def LocaleEntry.withChangelogEntry (e : LocaleEntry) (version text : String) : LocaleEntry :=
  ⟨e.name, e.description, e.tags, some (setKey (e.changelog.getD []) version text)⟩

/-- Accumulated locales object. -/
abbrev Locales := List (String × LocaleEntry)

/-- Name pass, cli.js lines 294-299: each language of the name source
replaces the whole entry with a fresh object holding only name. -/
def applyName : Locales → List (String × String) → Locales
  | locales, [] => locales
  | locales, (lang, val) :: rest =>
    applyName (setKey locales lang ⟨some val, none, none, none⟩) rest

/-- Summary and description passes, cli.js lines 301-309 and 311-319:
both spread the existing entry, if any, and set its description. -/
def applyDesc : Locales → List (String × String) → Locales
  | locales, [] => locales
  | locales, (lang, val) :: rest =>
    applyDesc
      (setKey locales lang
        (((getKey locales lang).getD LocaleEntry.empty).withDescription val)) rest

/-- Tags pass, cli.js lines 321-329: spreads the existing entry, if
any, and sets its tags. -/
def applyTags : Locales → List (String × List String) → Locales
  | locales, [] => locales
  | locales, (lang, val) :: rest =>
    applyTags
      (setKey locales lang
        (((getKey locales lang).getD LocaleEntry.empty).withTags val)) rest

/-- Inner changelog pass for one version, cli.js lines 334-342. -/
def applyChangelogLangs (version : String) : Locales → List (String × String) → Locales
  | locales, [] => locales
  | locales, (lang, text) :: rest =>
    applyChangelogLangs version
      (setKey locales lang
        (((getKey locales lang).getD LocaleEntry.empty).withChangelogEntry version text)) rest

/-- Outer changelog pass over versions, cli.js lines 331-344. -/
def applyChangelog : Locales → List (String × List (String × String)) → Locales
  | locales, [] => locales
  | locales, (version, langs) :: rest =>
    applyChangelog (applyChangelogLangs version locales langs) rest

/-- Localized sources of the release descriptor as the publish code
reads them from app.versions[0]: name, summary (the manifest
description map), description (the readme-derived map), tags and the
changelog.  A source holding none models an absent field, skipped by
the guarding if statements. -/
structure AppVersionLocales where
  name : Option (List (String × String))
  summary : Option (List (String × String))
  description : Option (List (String × String))
  tags : Option (List (String × List String))
  changelog : Option (List (String × List (String × String)))
deriving DecidableEq, Repr

/-- Guarded name pass: the if statement of cli.js line 294 skips an
absent source. -/
def stepName (locales : Locales) : Option (List (String × String)) → Locales
  | none => locales
  | some m => applyName locales m

/-- Guarded summary or description pass: the if statements of cli.js
lines 301 and 311 skip an absent source. -/
def stepDesc (locales : Locales) : Option (List (String × String)) → Locales
  | none => locales
  | some m => applyDesc locales m

/-- Guarded tags pass: the if statement of cli.js line 321 skips an
absent source. -/
def stepTags (locales : Locales) : Option (List (String × List String)) → Locales
  | none => locales
  | some m => applyTags locales m

/-- Guarded changelog pass: the if statement of cli.js line 331 skips
an absent source. -/
def stepChangelog (locales : Locales) : Option (List (String × List (String × String))) → Locales
  | none => locales
  | some cl => applyChangelog locales cl

/-- Full locale assembly, cli.js lines 291-346: the five sources are
processed in order into an initially empty locales object, each one
skipped when absent. -/
def assembleLocales (v : AppVersionLocales) : Locales :=
  stepChangelog
    (stepTags
      (stepDesc
        (stepDesc
          (stepName [] v.name)
          v.summary)
        v.description)
      v.tags)
    v.changelog

/-- Description field recorded for a language, treating a missing
entry as an entry with no fields. -/
def descriptionOf (m : Locales) (lang : String) : Option String :=
  ((getKey m lang).getD LocaleEntry.empty).description

/-! ## JSON serialization and the publish request (cli.js lines 384-394)

JSON.stringify is embedded as a deterministic total function on an
inductive JSON universe; numbers are restricted to the integers the
request actually carries. -/

/-- JSON values. -/
inductive Json where
  | null
  | bool (b : Bool)
  | num (n : Int)
  | str (s : String)
  | arr (xs : List Json)
  | obj (fields : List (String × Json))

/-- Escaping of one character inside a JSON string literal. -/
def escapeJsonChar (c : Char) : List Char :=
  if c = '"' then ['\\', '"']
  else if c = '\\' then ['\\', '\\']
  else if c = '\n' then ['\\', 'n']
  else if c = '\t' then ['\\', 't']
  else if c = '\r' then ['\\', 'r']
  else [c]

/-- Serialized JSON string literal with surrounding quotes. -/
def serializeStr (s : String) : String :=
  String.mk ('"' :: s.data.foldr (fun c acc => escapeJsonChar c ++ acc) ['"'])

mutual

/-- Deterministic serialization of a JSON value, the model of
JSON.stringify. -/
def Json.serialize : Json → String
  | .null => "null"
  | .bool true => "true"
  | .bool false => "false"
  | .num n => toString n
  | .str s => serializeStr s
  | .arr xs => "[" ++ Json.serializeList xs ++ "]"
  | .obj fs => "\x7b" ++ Json.serializeObj fs ++ "\x7d"

/-- Comma-separated serialization of array elements. -/
def Json.serializeList : List Json → String
  | [] => ""
  | [x] => x.serialize
  | x :: y :: rest => x.serialize ++ "," ++ Json.serializeList (y :: rest)

/-- Comma-separated serialization of object fields in insertion
order. -/
def Json.serializeObj : List (String × Json) → String
  | [] => ""
  | [(k, v)] => serializeStr k ++ ":" ++ v.serialize
  | (k, v) :: f :: rest =>
    serializeStr k ++ ":" ++ v.serialize ++ "," ++ Json.serializeObj (f :: rest)

end

/-- Request object assembled in publish, cli.js lines 384-394.  The
data field is the payload object axios will serialize for transport,
and the body field is the string aws4 signs, produced by
JSON.stringify at construction time. -/
structure SignableRequest where
  host : String
  method : String
  url : String
  data : Json
  body : String
  path : String

/-- Construction of the publish request, cli.js lines 384-394: one
payload object carrying the app and the force flag is stored as data
and serialized once into body. -/
def mkPublishRequest (app : Json) (force : Bool) : SignableRequest :=
  let payload := Json.obj [("app", app), ("force", Json.bool force)]
  ⟨"4c23v5xwtc.execute-api.eu-central-1.amazonaws.com",
   "POST",
   "https://4c23v5xwtc.execute-api.eu-central-1.amazonaws.com/production/apps/publish",
   payload,
   payload.serialize,
   "/production/apps/publish"⟩

/-- Bytes covered by the aws4 signature: the body string of the
request, cli.js line 397. -/
def signedBytes (r : SignableRequest) : String := r.body

/-- Bytes axios transmits: its default transform serializes the data
object with JSON.stringify, cli.js line 407. -/
def transmittedBytes (r : SignableRequest) : String := r.data.serialize

/-! ## Asset synchronizer (uploadToS3, cli.js lines 135-184) -/

/-- Extensions admitted by the upload filter, cli.js line 162. -/
def eligibleExts : List String := [".svg", ".png", ".jpeg", ".jpg", ".gz"]

/-- Eligibility of a file for upload, cli.js line 162: allowed
extension and outside the node_modules and .github trees. -/
def uploadEligible (filePath : String) : Bool :=
  eligibleExts.contains (extname filePath)
    && !(jsIncludes filePath "node_modules")
    && !(jsIncludes filePath ".github")

/-- Settlement of one JavaScript promise. -/
inductive Settlement where
  | fulfilled
  | rejected (reason : String)
deriving DecidableEq, Repr

/-- Settlement of the per-file callback promise, cli.js lines 158-180:
an ineligible file resolves immediately, a successful putObject
resolves after logging, and a failed putObject rejects the promise
while the failure is only logged to the console.  A project file is
given as its path together with whether its upload would succeed. -/
def fileSettlement (file : String × Bool) : Settlement :=
  if uploadEligible file.1 = false then .fulfilled
  else if file.2 then .fulfilled
  else .rejected ("Could not upload " ++ file.1)

/-- Settlements of all per-file promises collected by the walk. -/
def uploadSettlements (files : List (String × Bool)) : List Settlement :=
  files.map fileSettlement

/-- Paths for which a putObject call is issued: exactly the eligible
files, regardless of whether the upload later succeeds. -/
def uploadCalls (files : List (String × Bool)) : List String :=
  (files.filter (fun f => uploadEligible f.1)).map (fun f => f.1)

/-- Eventual state of the map promise wrapping one walk callback,
cli.js lines 142-154: its executor is an async function that awaits
the callback and then calls resolveMap.  When the callback fulfills
the map promise fulfills; when the callback rejects, the await throws
inside the executor, resolveMap is never reached, and the map promise
stays forever pending, modelled as none. -/
def mapPromise (file : String × Bool) : Option Settlement :=
  match fileSettlement file with
  | Settlement.fulfilled => some Settlement.fulfilled
  | Settlement.rejected _ => none

/-- Awaiting Promise.allSettled over the map promises, cli.js line
420: once every input promise has settled it resolves with the list of
settlements and never rejects, so the surrounding catch can never
assign the errors variable; while any input promise is forever
pending, its own promise is too and the await never completes,
modelled as none. -/
def awaitAllSettled (ps : List (Option Settlement)) :
    Option (Except String (List Settlement)) :=
  if ps.any (fun p => p.isNone) then none
  else some (Except.ok (ps.map (fun p => p.getD Settlement.fulfilled)))

/-- Overall report printed after the uploads, when any is printed. -/
inductive PublishReport where
  | success
  | assetPushFailed
deriving DecidableEq, Repr

/-- Aggregation in publish, cli.js lines 417-428: the code awaits
Promise.allSettled over the map promises.  When that await never
completes, execution stops there and no report is printed at all,
modelled as none.  When it completes, the errors variable is assigned
only on rejection, which never happens, so the asset push failure
message is dead code and the success message is printed. -/
def publishUploadReport (files : List (String × Bool)) : Option PublishReport :=
  match awaitAllSettled (files.map mapPromise) with
  | none => none
  | some (Except.error _) => some PublishReport.assetPushFailed
  | some (Except.ok _) => some PublishReport.success

/-! ## Publish pipeline (publish, cli.js lines 226-435) -/

/-- Structured registry response body, response.data.body in cli.js
line 409. -/
structure ApiResponse where
  success : Bool
  msg : String
deriving DecidableEq, Repr

/-- Outcome the pipeline reports.  The published constructor carries
the report printed after the uploads, none recording that the await
over the upload promises never completes and no report is printed. -/
inductive PipelineOutcome where
  | credentialAbort
  | credentialStoreFailure
  | transportFailure
  | rejected (msg : String)
  | published (report : Option PublishReport)
deriving DecidableEq, Repr

/-- External inputs of one publish invocation: the stored credential
pairs, the prompt answers, the secret store lookup for the prompted
key (none models an absent or falsy stored secret), whether persisting
a new secret succeeds, the parsed registry response (none models a
transport failure or a body-less response) and the project files with
their would-be upload results. -/
structure PublishInputs where
  storedCreds : List (String × String)
  promptedKeyId : String
  lookupSecret : Option String
  promptedSecret : String
  setOk : Bool
  response : Option ApiResponse
  files : List (String × Bool)
deriving DecidableEq, Repr

/-- Trace of one publish invocation: the setPassword calls issued, if
any, whether a signed request was sent, the putObject calls issued,
and the reported outcome. -/
structure PipelineTrace where
  setCalls : List (String × String)
  requestSent : Bool
  uploads : List String
  outcome : PipelineOutcome
deriving DecidableEq, Repr

/-- Tail of publish once credentials are resolved, cli.js lines
377-434: the request is signed and sent, a missing structured response
is a transport failure, a response with success false is reported as a
rejection before any upload, and otherwise the uploads are issued and
the aggregate report is produced. -/
def afterCreds (setCalls : List (String × String)) (i : PublishInputs) : PipelineTrace :=
  match i.response with
  | none => ⟨setCalls, true, [], .transportFailure⟩
  | some r =>
    if r.success = false then ⟨setCalls, true, [], .rejected r.msg⟩
    else ⟨setCalls, true, uploadCalls i.files, .published (publishUploadReport i.files)⟩

/-- Whole publish pipeline from credential resolution on, cli.js lines
348-434.  A unique stored pair is used directly; otherwise the key id
is prompted and its secret looked up; a missing secret prompts for
one, where an empty answer returns immediately, a non-empty answer is
persisted before use, and a failed persistence halts. -/
def runPublish (i : PublishInputs) : PipelineTrace :=
  match i.storedCreds with
  | [(_acct, _pw)] => afterCreds [] i
  | _ =>
    match i.lookupSecret with
    | some _sec => afterCreds [] i
    | none =>
      if i.promptedSecret = "" then ⟨[], false, [], .credentialAbort⟩
      else if i.setOk then afterCreds [(i.promptedKeyId, i.promptedSecret)] i
      else ⟨[(i.promptedKeyId, i.promptedSecret)], false, [], .credentialStoreFailure⟩

/-! ## Helper lemmas about strings -/

theorem string_append_assoc (a b c : String) : a ++ b ++ c = a ++ (b ++ c) := by
  apply String.ext
  simp [String.data_append, List.append_assoc]

/-! ## Helper lemmas about association lists -/

theorem getKey_setKey_self {α : Type} (m : List (String × α)) (k : String) (v : α) :
    getKey (setKey m k v) k = some v := by
  induction m with
  | nil => simp [setKey, getKey]
  | cons hd rest ih =>
    obtain ⟨k2, w⟩ := hd
    by_cases hk : k2 = k
    · simp [setKey, getKey, hk]
    · simp [setKey, getKey, hk, ih]

theorem getKey_setKey_ne {α : Type} (m : List (String × α)) (k k2 : String) (v : α)
    (h : k ≠ k2) : getKey (setKey m k v) k2 = getKey m k2 := by
  induction m with
  | nil => simp [setKey, getKey, h]
  | cons hd rest ih =>
    obtain ⟨k3, w⟩ := hd
    by_cases hk : k3 = k
    · subst hk
      simp [setKey, getKey, h]
    · simp [setKey, getKey, hk, ih]

/-! ## Helper lemmas about the locale passes -/

theorem getKey_applyName (m : List (String × String)) (locales : Locales) (lang : String) :
    getKey (applyName locales m) lang =
      match lookupLast m lang with
      | some v => some ⟨some v, none, none, none⟩
      | none => getKey locales lang := by
  induction m generalizing locales with
  | nil => rfl
  | cons hd rest ih =>
    obtain ⟨k, val⟩ := hd
    simp only [applyName, lookupLast]
    rw [ih]
    cases hrest : lookupLast rest lang with
    | some r => simp
    | none =>
      by_cases hk : k = lang
      · subst hk
        simp [getKey_setKey_self]
      · simp [hk, getKey_setKey_ne _ _ _ _ hk]

theorem getKey_applyDesc (m : List (String × String)) (locales : Locales) (lang : String) :
    getKey (applyDesc locales m) lang =
      match lookupLast m lang with
      | some d => some (((getKey locales lang).getD LocaleEntry.empty).withDescription d)
      | none => getKey locales lang := by
  induction m generalizing locales with
  | nil => rfl
  | cons hd rest ih =>
    obtain ⟨k, val⟩ := hd
    simp only [applyDesc, lookupLast]
    rw [ih]
    cases hrest : lookupLast rest lang with
    | some r =>
      by_cases hk : k = lang
      · subst hk
        simp [getKey_setKey_self, LocaleEntry.withDescription]
      · simp [getKey_setKey_ne _ _ _ _ hk]
    | none =>
      by_cases hk : k = lang
      · subst hk
        simp [getKey_setKey_self]
      · simp [hk, getKey_setKey_ne _ _ _ _ hk]

theorem getKey_applyTags (m : List (String × List String)) (locales : Locales) (lang : String) :
    getKey (applyTags locales m) lang =
      match lookupLast m lang with
      | some t => some (((getKey locales lang).getD LocaleEntry.empty).withTags t)
      | none => getKey locales lang := by
  induction m generalizing locales with
  | nil => rfl
  | cons hd rest ih =>
    obtain ⟨k, val⟩ := hd
    simp only [applyTags, lookupLast]
    rw [ih]
    cases hrest : lookupLast rest lang with
    | some r =>
      by_cases hk : k = lang
      · subst hk
        simp [getKey_setKey_self, LocaleEntry.withTags]
      · simp [getKey_setKey_ne _ _ _ _ hk]
    | none =>
      by_cases hk : k = lang
      · subst hk
        simp [getKey_setKey_self]
      · simp [hk, getKey_setKey_ne _ _ _ _ hk]

theorem getKey_applyChangelogLangs_notMentioned (langs : List (String × String))
    (version : String) (locales : Locales) (lang : String)
    (h : lookupLast langs lang = none) :
    getKey (applyChangelogLangs version locales langs) lang = getKey locales lang := by
  induction langs generalizing locales with
  | nil => rfl
  | cons hd rest ih =>
    obtain ⟨k, text⟩ := hd
    simp only [lookupLast] at h
    cases hrest : lookupLast rest lang with
    | some r => simp [hrest] at h
    | none =>
      rw [hrest] at h
      simp only at h
      by_cases hk : k = lang
      · simp [hk] at h
      · simp only [applyChangelogLangs]
        rw [ih _ hrest, getKey_setKey_ne _ _ _ _ hk]

theorem getKey_applyChangelog_notMentioned (cl : List (String × List (String × String)))
    (locales : Locales) (lang : String)
    (h : ∀ p ∈ cl, lookupLast p.2 lang = none) :
    getKey (applyChangelog locales cl) lang = getKey locales lang := by
  induction cl generalizing locales with
  | nil => rfl
  | cons hd rest ih =>
    simp only [applyChangelog]
    rw [ih _ (fun p hp => h p (List.mem_cons_of_mem hd hp)),
      getKey_applyChangelogLangs_notMentioned _ _ _ _ (h hd (List.mem_cons_self hd rest))]

theorem descriptionOf_applyChangelogLangs (langs : List (String × String))
    (version : String) (locales : Locales) (lang : String) :
    descriptionOf (applyChangelogLangs version locales langs) lang = descriptionOf locales lang := by
  induction langs generalizing locales with
  | nil => rfl
  | cons hd rest ih =>
    obtain ⟨k, text⟩ := hd
    simp only [applyChangelogLangs]
    rw [ih]
    by_cases hk : k = lang
    · subst hk
      simp [descriptionOf, getKey_setKey_self, LocaleEntry.withChangelogEntry]
    · simp [descriptionOf, getKey_setKey_ne _ _ _ _ hk]

theorem descriptionOf_applyChangelog (cl : List (String × List (String × String)))
    (locales : Locales) (lang : String) :
    descriptionOf (applyChangelog locales cl) lang = descriptionOf locales lang := by
  induction cl generalizing locales with
  | nil => rfl
  | cons hd rest ih =>
    simp only [applyChangelog]
    rw [ih, descriptionOf_applyChangelogLangs]

theorem descriptionOf_applyTags (m : List (String × List String))
    (locales : Locales) (lang : String) :
    descriptionOf (applyTags locales m) lang = descriptionOf locales lang := by
  unfold descriptionOf
  rw [getKey_applyTags]
  cases lookupLast m lang with
  | none => rfl
  | some t =>
    simp [LocaleEntry.withTags]

/-! ## Helper lemmas about the guarded locale steps -/

theorem getKey_stepName (o : Option (List (String × String))) (locales : Locales)
    (lang : String) (h : ∀ m, o = some m → lookupLast m lang = none) :
    getKey (stepName locales o) lang = getKey locales lang := by
  cases o with
  | none => rfl
  | some m =>
    simp only [stepName]
    rw [getKey_applyName, h m rfl]

theorem getKey_stepDesc (o : Option (List (String × String))) (locales : Locales)
    (lang : String) (h : ∀ m, o = some m → lookupLast m lang = none) :
    getKey (stepDesc locales o) lang = getKey locales lang := by
  cases o with
  | none => rfl
  | some m =>
    simp only [stepDesc]
    rw [getKey_applyDesc, h m rfl]

theorem getKey_stepChangelog (o : Option (List (String × List (String × String))))
    (locales : Locales) (lang : String)
    (h : ∀ cl, o = some cl → ∀ p ∈ cl, lookupLast p.2 lang = none) :
    getKey (stepChangelog locales o) lang = getKey locales lang := by
  cases o with
  | none => rfl
  | some cl => exact getKey_applyChangelog_notMentioned cl locales lang (h cl rfl)

theorem getKey_stepTags_some (o : Option (List (String × List String)))
    (tm : List (String × List String)) (locales : Locales) (lang : String) (tv : List String)
    (ho : o = some tm) (htv : lookupLast tm lang = some tv) :
    getKey (stepTags locales o) lang
      = some (((getKey locales lang).getD LocaleEntry.empty).withTags tv) := by
  subst ho
  simp only [stepTags]
  rw [getKey_applyTags, htv]

theorem descriptionOf_stepDesc_some (o : Option (List (String × String)))
    (m : List (String × String)) (locales : Locales) (lang d : String)
    (ho : o = some m) (h : lookupLast m lang = some d) :
    descriptionOf (stepDesc locales o) lang = some d := by
  subst ho
  simp only [stepDesc]
  unfold descriptionOf
  rw [getKey_applyDesc, h]
  rfl

theorem descriptionOf_stepTags (o : Option (List (String × List String)))
    (locales : Locales) (lang : String) :
    descriptionOf (stepTags locales o) lang = descriptionOf locales lang := by
  cases o with
  | none => rfl
  | some m => exact descriptionOf_applyTags m locales lang

theorem descriptionOf_stepChangelog (o : Option (List (String × List (String × String))))
    (locales : Locales) (lang : String) :
    descriptionOf (stepChangelog locales o) lang = descriptionOf locales lang := by
  cases o with
  | none => rfl
  | some cl => exact descriptionOf_applyChangelog cl locales lang

/-! ## Claim theorems -/

/-- C1 counterexample: a file under the node_modules dependency
directory passes the tar filter and is therefore included in the
archive, refuting the claim that the archive contains no file under
the dependency directory. -/
theorem C1_counterexample :
    tarFilter "com.app-v1.0.0.tar.gz" "node_modules/lodash/index.js" true = true := by
  rfl

/-- C1 amended: among paths not containing the node_modules segment,
the tar filter excludes every file whose path starts with a dot and
every file whose path contains the archive output filename, while
every path containing the node_modules segment is included. -/
theorem C1_amended (tarFile p q : String) (isFile : Bool)
    (hnm : jsIncludes p "node_modules" = false)
    (h : jsStartsWith p "." = true ∨ jsIncludes p tarFile = true)
    (hq : jsIncludes q "node_modules" = true) :
    tarFilter tarFile p true = false ∧ tarFilter tarFile q isFile = true := by
  constructor
  · rcases h with h | h
    · simp [tarFilter, hnm, h]
    · by_cases hs : jsStartsWith p "." = true
      · simp [tarFilter, hnm, hs]
      · rw [Bool.not_eq_true] at hs
        simp [tarFilter, hnm, hs, h]
  · simp [tarFilter, hq]

/-- Witness for C1 amended at a concrete dotfile and a concrete
dependency file. -/
theorem C1_amended_witness :
    jsIncludes ".gitignore" "node_modules" = false ∧
    (tarFilter "com.app-v1.0.0.tar.gz" ".gitignore" true = false ∧
     tarFilter "com.app-v1.0.0.tar.gz" "node_modules/lib/a.js" true = true) :=
  ⟨by rfl,
   C1_amended "com.app-v1.0.0.tar.gz" ".gitignore" "node_modules/lib/a.js" true
     (by rfl) (Or.inl (by rfl)) (by rfl)⟩

/-- C2 code behavior at the failing input of the claim: with three
eligible asset files of which the second upload fails, the walk still
attempts every upload and records the failure in the rejected per-file
callback promise, but that rejection leaves its wrapping map promise
forever pending, the await over Promise.allSettled never completes,
and the pipeline prints neither the partial failure report nor the
success report.  The claim that the outcome is reported as partially
failed with the failed path listed describes the intent of the dead
branch guarded by the errors variable, not the behavior of the
code. -/
theorem C2_failed_upload_never_reported :
    uploadSettlements
        [("assets/icon.png", true), ("assets/large.jpg", false), ("com.app-latest.tar.gz", true)]
      = [Settlement.fulfilled, Settlement.rejected "Could not upload assets/large.jpg",
         Settlement.fulfilled] ∧
    [("assets/icon.png", true), ("assets/large.jpg", false),
        ("com.app-latest.tar.gz", true)].map mapPromise
      = [some Settlement.fulfilled, none, some Settlement.fulfilled] ∧
    runPublish
        ⟨[("admin", "secret")], "", none, "", true, some ⟨true, "Inserted app"⟩,
         [("assets/icon.png", true), ("assets/large.jpg", false), ("com.app-latest.tar.gz", true)]⟩
      = ⟨[], true, ["assets/icon.png", "assets/large.jpg", "com.app-latest.tar.gz"],
         PipelineOutcome.published none⟩ :=
  ⟨by rfl, by rfl, by rfl⟩

/-- C3: the bytes signed by aws4 are the body string produced by
serializing the payload at request construction, and the bytes axios
transmits are the serialization of the data field of the same request;
the two are identical for every app object and force flag. -/
theorem C3_signed_equals_transmitted (app : Json) (force : Bool) :
    signedBytes (mkPublishRequest app force) = transmittedBytes (mkPublishRequest app force) :=
  rfl

/-- C4: whenever the structured registry response carries success
false, the pipeline reports the returned message as a rejection and
issues zero upload calls, for every message and every project file
list. -/
theorem C4_rejection_halts (a pw pk ps : String) (ls : Option String) (ok : Bool)
    (files : List (String × Bool)) (msg : String) :
    runPublish ⟨[(a, pw)], pk, ls, ps, ok, some ⟨false, msg⟩, files⟩
      = ⟨[], true, [], PipelineOutcome.rejected msg⟩ :=
  rfl

/-- C5: for every language defined in both the summary source and the
description source, the assembled description for that language is the
description-source value, because the description pass runs after the
summary pass and the later tags and changelog passes never write the
description field. -/
theorem C5_description_wins (v : AppVersionLocales) (sm dm : List (String × String))
    (lang s0 d : String)
    (_hs : v.summary = some sm) (hd : v.description = some dm)
    (_hsl : lookupLast sm lang = some s0)
    (hdl : lookupLast dm lang = some d) :
    descriptionOf (assembleLocales v) lang = some d := by
  unfold assembleLocales
  rw [descriptionOf_stepChangelog, descriptionOf_stepTags]
  exact descriptionOf_stepDesc_some v.description dm _ lang d hd hdl

/-- Witness for C5 at a concrete descriptor whose summary and
description both define English. -/
theorem C5_description_wins_witness :
    lookupLast [("en", "short")] "en" = some "short" ∧
    lookupLast [("en", "long")] "en" = some "long" ∧
    descriptionOf
        (assembleLocales ⟨none, some [("en", "short")], some [("en", "long")], none, none⟩)
        "en" = some "long" :=
  ⟨by rfl, by rfl,
   C5_description_wins _ _ _ "en" "short" "long" rfl rfl (by rfl) (by rfl)⟩

/-- C6: when the stored credentials are not a unique pair, the secret
store holds no secret for the prompted key id, and the operator
answers the secret prompt with the empty string, the pipeline halts
with no secret persisted, no request signed or sent, and no upload
issued. -/
theorem C6_empty_secret_aborts (i : PublishInputs)
    (hc : i.storedCreds.length ≠ 1)
    (hl : i.lookupSecret = none)
    (hp : i.promptedSecret = "") :
    runPublish i = ⟨[], false, [], PipelineOutcome.credentialAbort⟩ := by
  obtain ⟨sc, pk, ls, ps, ok, resp, files⟩ := i
  dsimp only at hc hl hp
  subst hl
  subst hp
  rcases sc with _ | ⟨x, _ | ⟨y, rest⟩⟩
  · rfl
  · exact absurd rfl hc
  · rfl

/-- Witness for C6 at an empty credential store and an empty secret
answer. -/
theorem C6_empty_secret_aborts_witness :
    ([] : List (String × String)).length ≠ 1 ∧
    runPublish ⟨[], "AKIA123", none, "", true, some ⟨true, "ok"⟩, [("assets/icon.png", true)]⟩
      = ⟨[], false, [], PipelineOutcome.credentialAbort⟩ :=
  ⟨by decide, C6_empty_secret_aborts _ (by decide) rfl rfl⟩

/-- C7: the locale assembly is a total function with no failure mode,
each absent source is skipped by its guard, and a descriptor with no
localization at all, where the readme-derived description map is
absent or empty, assembles to the empty mapping. -/
theorem C7_no_localization_empty (v : AppVersionLocales)
    (hn : v.name = none) (hs : v.summary = none)
    (hd : v.description = none ∨ v.description = some [])
    (ht : v.tags = none) (hc : v.changelog = none) :
    assembleLocales v = [] := by
  obtain ⟨nm, sm, dm, tg, cl⟩ := v
  dsimp only at hn hs hd ht hc
  subst hn
  subst hs
  subst ht
  subst hc
  rcases hd with hd | hd <;> subst hd <;> rfl

/-- Witness for C7 at a descriptor carrying no localization. -/
theorem C7_no_localization_empty_witness :
    assembleLocales ⟨none, none, some [], none, none⟩ = [] :=
  C7_no_localization_empty _ rfl rfl (Or.inr rfl) rfl rfl

/-- C8: a language appearing only in the tags source gets a bundle
entry holding exactly a tags field, with the name and description keys
absent rather than null or empty. -/
theorem C8_tags_only_language (v : AppVersionLocales) (tm : List (String × List String))
    (lang : String) (tv : List String)
    (htags : v.tags = some tm) (htv : lookupLast tm lang = some tv)
    (hn : ∀ m, v.name = some m → lookupLast m lang = none)
    (hs : ∀ m, v.summary = some m → lookupLast m lang = none)
    (hd : ∀ m, v.description = some m → lookupLast m lang = none)
    (hc : ∀ cl, v.changelog = some cl → ∀ p ∈ cl, lookupLast p.2 lang = none) :
    getKey (assembleLocales v) lang = some ⟨none, none, some tv, none⟩ := by
  unfold assembleLocales
  rw [getKey_stepChangelog _ _ _ hc,
    getKey_stepTags_some _ tm _ _ tv htags htv,
    getKey_stepDesc _ _ _ hd,
    getKey_stepDesc _ _ _ hs,
    getKey_stepName _ _ _ hn]
  rfl

/-- Witness for C8 at a descriptor whose only localized source is a
Dutch tags entry. -/
theorem C8_tags_only_language_witness :
    lookupLast [("nl", ["tag1", "tag2"])] "nl" = some ["tag1", "tag2"] ∧
    getKey (assembleLocales ⟨none, none, none, some [("nl", ["tag1", "tag2"])], none⟩) "nl"
      = some ⟨none, none, some ["tag1", "tag2"], none⟩ :=
  ⟨by rfl,
   C8_tags_only_language _ _ "nl" _ rfl (by rfl)
     (fun m h => by cases h) (fun m h => by cases h) (fun m h => by cases h)
     (fun cl h => by cases h)⟩

/-- C9 counterexample: in literal version mode the archive filename
carries a v between the hyphen and the version, so it differs from the
name built from the literal semantic version alone. -/
theorem C9_counterexample :
    tarFileName "com.example.app" "1.2.3" false = "com.example.app-v1.2.3.tar.gz" ∧
    tarFileName "com.example.app" "1.2.3" false ≠ "com.example.app-1.2.3.tar.gz" := by
  constructor
  · rfl
  · decide

/-- C9 amended: the archive output filename is the app identifier, a
hyphen, then the letter v followed by the manifest version, or the
fixed alias latest when the latest mode is selected, followed by the
tar.gz suffix. -/
theorem C9_amended_filename (id ver : String) :
    tarFileName id ver false = id ++ "-v" ++ ver ++ ".tar.gz" ∧
    tarFileName id ver true = id ++ "-latest.tar.gz" := by
  constructor
  · show ((id ++ "-") ++ ("v" ++ ver)) ++ ".tar.gz" = ((id ++ "-v") ++ ver) ++ ".tar.gz"
    rw [← string_append_assoc (id ++ "-") "v" ver]
    rw [string_append_assoc id "-" "v"]
    rfl
  · show ((id ++ "-") ++ "latest") ++ ".tar.gz" = id ++ "-latest.tar.gz"
    rw [string_append_assoc id "-" "latest", string_append_assoc]
    rfl

/-- C10 counterexample: a manifest category holding an empty array is
truthy, is returned unchanged, and yields an empty category list; a
manifest category holding the empty string is falsy and becomes the
general category rather than a wrapped singleton. -/
theorem C10_counterexample :
    determineCategory (some (JsCategory.arr [])) = [] ∧
    determineCategory (some (JsCategory.str "")) = ["general"] :=
  ⟨rfl, rfl⟩

/-- C10 amended: an absent or falsy category becomes the general
singleton, a truthy single string is wrapped into a singleton, an
array is passed through unchanged and may be empty, and the result
holds exactly one element whenever the manifest category is not itself
an array. -/
theorem C10_amended (cat : Option JsCategory) (s : String) (xs : List String) :
    determineCategory none = ["general"] ∧
    determineCategory (some (JsCategory.str "")) = ["general"] ∧
    (s ≠ "" → determineCategory (some (JsCategory.str s)) = [s]) ∧
    determineCategory (some (JsCategory.arr xs)) = xs ∧
    ((∀ ys, cat ≠ some (JsCategory.arr ys)) → (determineCategory cat).length = 1) := by
  refine ⟨rfl, rfl, ?_, rfl, ?_⟩
  · intro h
    simp [determineCategory, JsCategory.truthy, h]
  · intro h
    match cat with
    | none => rfl
    | some (JsCategory.str t) =>
      by_cases ht : t = ""
      · subst ht
        rfl
      · simp [determineCategory, JsCategory.truthy, ht]
    | some (JsCategory.arr ys) => exact absurd rfl (h ys)

/-- Witness for C10 amended at a concrete non-empty string
category. -/
theorem C10_amended_witness :
    ("diy" : String) ≠ "" ∧
    determineCategory (some (JsCategory.str "diy")) = ["diy"] ∧
    (determineCategory (some (JsCategory.str "diy"))).length = 1 :=
  ⟨by decide,
   (C10_amended (some (JsCategory.str "diy")) "diy" []).2.2.1 (by decide),
   (C10_amended (some (JsCategory.str "diy")) "diy" []).2.2.2.2 (fun ys h => by cases h)⟩

end HCS
